import Mathlib

/-!
Verification of the `react-native-ios-intents` generator and invocation
protocol.  The definitions below are shallow embeddings of the TypeScript
sources (`src/cli/utils.ts`, `src/cli/swift-codegen.ts`,
`src/SiriShortcutsManager.ts`) and of the Swift bridge
(`ios/IosIntents.swift`), together with a denotational model of the Swift
code emitted by the generator.
-/

/-! ## Shared key-value store (UserDefaults in the App Group)

Values that the two processes exchange through the shared store are strings,
doubles, or booleans.  Doubles are modelled as rationals (the concrete values
written by the code are exactly representable).  The store itself is an
association list keyed by `String`; `storeSet` overwrites in place (keeping
the position of an existing key) and appends new keys, matching dictionary
semantics. -/

inductive UDValue where
  | str (s : String)
  | num (q : ℚ)
  | boolV (b : Bool)
deriving DecidableEq, Repr

abbrev Store := List (String × UDValue)

/-- Reads the value stored under key `k` (first binding wins). -/
def storeGet : Store → String → Option UDValue
  | [], _ => none
  | p :: t, k => if p.1 = k then some p.2 else storeGet t k

/-- Writes value `v` under key `k`: replaces an existing binding in place,
otherwise appends a new binding. -/
def storeSet : Store → String → UDValue → Store
  | [], k, v => [(k, v)]
  | p :: t, k, v => if p.1 = k then (k, v) :: t else p :: storeSet t k v

/-- Models `UserDefaults.removeObject(forKey:)`: drops every binding of `k`. -/
def storeRemove : Store → String → Store
  | [], _ => []
  | p :: t, k => if p.1 = k then storeRemove t k else p :: storeRemove t k

/-- Models `UserDefaults.string(forKey:)` restricted to string-typed values
(the keys read this way by the code under verification are always written as
strings). -/
def storeStringFor (s : Store) (k : String) : Option String :=
  match storeGet s k with
  | some (.str t) => some t
  | _ => none

/-- Models `UserDefaults.double(forKey:)`: numbers are returned as stored,
booleans coerce to 1/0, anything else (including absence) yields 0.
Foundation's numeric-string coercion is not modelled; the keys read this way
by the code under verification are always written as numbers. -/
def storeDoubleFor (s : Store) (k : String) : ℚ :=
  match storeGet s k with
  | some (.num q) => q
  | some (.boolV b) => if b then 1 else 0
  | _ => 0

/-- Models the JavaScript `String.prototype.startsWith` test used by the
sources (`p.startsWith(...)` and the Swift `hasPrefix` key tests). -/
def jsStartsWith (s pre : String) : Bool :=
  pre.data.isPrefixOf s.data

/-! ## Application-side clear of a pending command

`handleDarwinNotification` (ios/IosIntents.swift, lines 190–211) re-reads the
stored nonce and clears the command keys only when it still equals the nonce
under which the read began. -/

/-- Models the loop in `handleDarwinNotification` that removes every key with
the `IosIntentsParam_` or `IosIntentsParamType_` key prefixes
(ios/IosIntents.swift lines 202–206). -/
def clearParamKeys : Store → Store
  | [] => []
  | p :: t =>
    if jsStartsWith p.1 "IosIntentsParam_" || jsStartsWith p.1 "IosIntentsParamType_" then
      clearParamKeys t
    else
      p :: clearParamKeys t

/-- Models the clear step of `handleDarwinNotification`
(ios/IosIntents.swift lines 190–211): re-read `IosIntentsCommandNonce` and,
only when it equals `commandNonce` (the nonce read when handling began),
remove the pending command, nonce, timestamp, confirmation flag, and every
`IosIntentsParam_` / `IosIntentsParamType_` key; otherwise leave the store
untouched. -/
def clearPendingCommand (s : Store) (commandNonce : String) : Store :=
  if storeStringFor s "IosIntentsCommandNonce" = some commandNonce then
    clearParamKeys (storeRemove (storeRemove (storeRemove (storeRemove s
        "IosIntentsPendingCommand") "IosIntentsCommandNonce")
        "IosIntentsCommandTimestamp") "IosIntentsUserConfirmed")
  else
    s

lemma storeGet_storeRemove (s : Store) (k k' : String) (h : k' ≠ k) :
    storeGet (storeRemove s k) k' = storeGet s k' := by
  induction s with
  | nil => rfl
  | cons p t ih =>
    by_cases hp : p.1 = k
    · have hk' : p.1 ≠ k' := by rw [hp]; exact fun hc => h hc.symm
      simp only [storeRemove, if_pos hp, storeGet, if_neg hk']
      exact ih
    · by_cases hk' : p.1 = k'
      · simp only [storeRemove, if_neg hp, storeGet, if_pos hk']
      · simp only [storeRemove, if_neg hp, storeGet, if_neg hk']
        exact ih

lemma storeGet_storeRemove_self (s : Store) (k : String) :
    storeGet (storeRemove s k) k = none := by
  induction s with
  | nil => rfl
  | cons p t ih =>
    by_cases hp : p.1 = k
    · simp only [storeRemove, if_pos hp]
      exact ih
    · simp only [storeRemove, if_neg hp, storeGet, if_neg hp]
      exact ih

lemma storeGet_clearParamKeys_none (s : Store) (k : String)
    (hk : storeGet s k = none) : storeGet (clearParamKeys s) k = none := by
  induction s with
  | nil => rfl
  | cons p t ih =>
    by_cases hp : p.1 = k
    · simp [storeGet, hp] at hk
    · simp only [storeGet, if_neg hp] at hk
      by_cases hq :
          jsStartsWith p.1 "IosIntentsParam_" || jsStartsWith p.1 "IosIntentsParamType_"
      · simpa [clearParamKeys, hq] using ih hk
      · simpa [clearParamKeys, hq, storeGet, hp] using ih hk

lemma mem_clearParamKeys (s : Store) (p : String × UDValue)
    (hp : p ∈ clearParamKeys s) :
    ¬ (jsStartsWith p.1 "IosIntentsParam_" ∨ jsStartsWith p.1 "IosIntentsParamType_") := by
  induction s with
  | nil => simp [clearParamKeys] at hp
  | cons q t ih =>
    by_cases hq :
        jsStartsWith q.1 "IosIntentsParam_" || jsStartsWith q.1 "IosIntentsParamType_"
    · exact ih (by simpa [clearParamKeys, hq] using hp)
    · rcases (by simpa [clearParamKeys, hq] using hp : p = q ∨ p ∈ clearParamKeys t) with
        hpq | hmem
      · subst hpq
        simpa using hq
      · exact ih hmem

/-- C1.  The application-side clear is guarded by the nonce: when the stored
nonce still equals the nonce under which handling began, the pending-command,
nonce, timestamp and confirmation keys are gone from the resulting store and
every parameter / type-tag key is gone as well; when the stored nonce differs,
the clear is a no-op and the store is returned byte-for-byte unchanged. -/
theorem clearPendingCommand_nonce_guard (s : Store) (commandNonce : String) :
    (storeStringFor s "IosIntentsCommandNonce" = some commandNonce →
      storeGet (clearPendingCommand s commandNonce) "IosIntentsPendingCommand" = none ∧
      storeGet (clearPendingCommand s commandNonce) "IosIntentsCommandNonce" = none ∧
      storeGet (clearPendingCommand s commandNonce) "IosIntentsCommandTimestamp" = none ∧
      storeGet (clearPendingCommand s commandNonce) "IosIntentsUserConfirmed" = none ∧
      ∀ p ∈ clearPendingCommand s commandNonce,
        ¬ (jsStartsWith p.1 "IosIntentsParam_" ∨ jsStartsWith p.1 "IosIntentsParamType_")) ∧
    (storeStringFor s "IosIntentsCommandNonce" ≠ some commandNonce →
      clearPendingCommand s commandNonce = s) := by
  constructor
  · intro hmatch
    simp only [clearPendingCommand, hmatch, if_pos rfl]
    refine ⟨?_, ?_, ?_, ?_, ?_⟩
    · exact storeGet_clearParamKeys_none _ _ (by
        rw [storeGet_storeRemove _ _ _ (by decide),
          storeGet_storeRemove _ _ _ (by decide),
          storeGet_storeRemove _ _ _ (by decide)]
        exact storeGet_storeRemove_self _ _)
    · exact storeGet_clearParamKeys_none _ _ (by
        rw [storeGet_storeRemove _ _ _ (by decide),
          storeGet_storeRemove _ _ _ (by decide)]
        exact storeGet_storeRemove_self _ _)
    · exact storeGet_clearParamKeys_none _ _ (by
        rw [storeGet_storeRemove _ _ _ (by decide)]
        exact storeGet_storeRemove_self _ _)
    · exact storeGet_clearParamKeys_none _ _ (storeGet_storeRemove_self _ _)
    · exact fun p hp => mem_clearParamKeys _ p hp
  · intro hdiff
    simp [clearPendingCommand, hdiff]

/-- Witness for C1 at a concrete store: with a matching nonce the command and
parameter keys are cleared, and with a mismatching nonce the store survives
unchanged. -/
theorem clearPendingCommand_nonce_guard_witness :
    storeGet (clearPendingCommand
        [("IosIntentsPendingCommand", .str "startTimer"),
         ("IosIntentsCommandNonce", .str "N1"),
         ("IosIntentsCommandTimestamp", .num 17),
         ("IosIntentsParam_taskName", .str "Work"),
         ("other", .str "keep")] "N1") "IosIntentsPendingCommand" = none ∧
    clearPendingCommand
        [("IosIntentsPendingCommand", .str "startTimer"),
         ("IosIntentsCommandNonce", .str "N2")] "N1" =
      [("IosIntentsPendingCommand", .str "startTimer"),
       ("IosIntentsCommandNonce", .str "N2")] := by
  constructor
  · exact ((clearPendingCommand_nonce_guard _ "N1").1 (by decide)).1
  · exact (clearPendingCommand_nonce_guard _ "N1").2 (by decide)

/-! ## Localization merge engine (src/cli/utils.ts, `mergeStringCatalog`)

The string catalog is a parsed JSON document.  JSON values are modelled by
`JsonVal`; objects are association lists whose assignment (`objSet`) replaces
an existing property in place and appends a new property at the end, matching
JavaScript object semantics. -/

inductive JsonVal where
  | str (s : String)
  | num (q : ℚ)
  | boolJ (b : Bool)
  | null
  | arr (xs : List JsonVal)
  | obj (fields : List (String × JsonVal))

/-- Property lookup on a JavaScript object (first binding wins; JS objects
never hold duplicate keys). -/
def objLookup : List (String × JsonVal) → String → Option JsonVal
  | [], _ => none
  | p :: t, k => if p.1 = k then some p.2 else objLookup t k

/-- Property assignment on a JavaScript object: replaces an existing property
in place, otherwise appends the property at the end. -/
def objSet : List (String × JsonVal) → String → JsonVal → List (String × JsonVal)
  | [], k, v => [(k, v)]
  | p :: t, k, v => if p.1 = k then (k, v) :: t else p :: objSet t k v

/-- JavaScript truthiness of a JSON value. -/
def JsonVal.truthy : JsonVal → Bool
  | .null => false
  | .boolJ b => b
  | .num q => if q = 0 then false else true
  | .str s => if s = "" then false else true
  | .arr _ => true
  | .obj _ => true

/-- Property access `j.f` on an arbitrary JSON value: absent unless `j` is an
object holding `f`. -/
def JsonVal.field : JsonVal → String → Option JsonVal
  | .obj fs, k => objLookup fs k
  | _, _ => none

/-- Outcome of reading and `JSON.parse`-ing the existing catalog text:
`absent` models a `null`/empty content, `unparsable` a thrown parse error
(caught by `mergeStringCatalog`, which logs a warning and starts fresh), and
`parsed j` a successful parse producing `j`. -/
inductive ExistingCatalog where
  | absent
  | unparsable
  | parsed (j : JsonVal)

/-- The `en` localization object written by the merge:
`{stringUnit: {state: "translated", value: v}}`. -/
def enLocalization (v : String) : JsonVal :=
  .obj [("stringUnit", .obj [("state", .str "translated"), ("value", .str v)])]

/-- The fresh entry created for a key absent from the working catalog
(src/cli/utils.ts lines 214–227): extractionState "manual" and only the `en`
localization. -/
def freshCatalogEntry (v : String) : JsonVal :=
  .obj [("extractionState", .str "manual"), ("localizations", .obj [("en", enLocalization v)])]

/-- Models the present-key branch of the merge (src/cli/utils.ts lines
203–213): ensure the entry has a `localizations` object (a falsy or absent
one is replaced by `{}`), then overwrite only its `en` property.  A truthy
non-object entry or `localizations` value is left unchanged (in the source
such corrupt shapes would throw on property assignment; no claim concerns
them). -/
def setEnLocalization (entry : JsonVal) (v : String) : JsonVal :=
  match entry with
  | .obj fs =>
    let locs := match objLookup fs "localizations" with
      | some l => if l.truthy then l else .obj []
      | none => .obj []
    let locs' := match locs with
      | .obj lf => JsonVal.obj (objSet lf "en" (enLocalization v))
      | other => other
    .obj (objSet fs "localizations" locs')
  | e => e

/-- One step of the add-or-update loop over `Object.entries(newStrings)`
(src/cli/utils.ts lines 202–228): a truthy existing entry gets only its `en`
localization overwritten, anything else is replaced by a fresh entry. -/
def mergeEntryStep (cur : Option JsonVal) (v : String) : JsonVal :=
  match cur with
  | some e => if e.truthy then setEnLocalization e v else freshCatalogEntry v
  | none => freshCatalogEntry v

/-- The add-or-update loop of `mergeStringCatalog` over all new strings. -/
def applyNewStrings (strings : List (String × JsonVal))
    (newStrings : List (String × String)) : List (String × JsonVal) :=
  newStrings.foldl (fun st kv => objSet st kv.1 (mergeEntryStep (objLookup st kv.1) kv.2)) strings

/-- Models `mergeStringCatalog` (src/cli/utils.ts lines 169–231), returning
the merged catalog as a JSON value (the source serializes this value with
`JSON.stringify`).  A missing or unparsable existing catalog starts from the
empty base catalog (sourceLanguage "en", version "1.0"); a parsed one
contributes its `strings`, `sourceLanguage` and `version` when truthy.
Spreading a truthy non-object `strings` value is modelled as the empty
object. -/
def mergeStringCatalog (newStrings : List (String × String))
    (existing : ExistingCatalog) : JsonVal :=
  let strings0 : List (String × JsonVal) :=
    match existing with
    | .parsed j =>
      match j.field "strings" with
      | some (.obj fs) => fs
      | _ => []
    | _ => []
  let sl : JsonVal :=
    match existing with
    | .parsed j =>
      match j.field "sourceLanguage" with
      | some v => if v.truthy then v else .str "en"
      | none => .str "en"
    | _ => .str "en"
  let ver : JsonVal :=
    match existing with
    | .parsed j =>
      match j.field "version" with
      | some v => if v.truthy then v else .str "1.0"
      | none => .str "1.0"
    | _ => .str "1.0"
  .obj [("sourceLanguage", sl),
        ("strings", .obj (applyNewStrings strings0 newStrings)),
        ("version", ver)]

lemma objLookup_objSet_self (fs : List (String × JsonVal)) (k : String) (v : JsonVal) :
    objLookup (objSet fs k v) k = some v := by
  induction fs with
  | nil => simp [objSet, objLookup]
  | cons p t ih =>
    by_cases hp : p.1 = k
    · simp [objSet, if_pos hp, objLookup]
    · simp only [objSet, if_neg hp, objLookup, if_neg hp]
      exact ih

lemma objLookup_objSet_ne (fs : List (String × JsonVal)) (k k' : String) (v : JsonVal)
    (h : k' ≠ k) : objLookup (objSet fs k v) k' = objLookup fs k' := by
  have hkk' : k ≠ k' := fun hc => h hc.symm
  induction fs with
  | nil => simp [objSet, objLookup, hkk']
  | cons p t ih =>
    by_cases hp : p.1 = k
    · have hpk' : p.1 ≠ k' := by rw [hp]; exact hkk'
      simp [objSet, hp, objLookup, hpk', hkk']
    · by_cases hk' : p.1 = k'
      · simp [objSet, hp, objLookup, hk', h]
      · simp only [objSet, if_neg hp, objLookup, if_neg hk']
        exact ih

lemma objLookup_objSet_isSome (fs : List (String × JsonVal)) (k k' : String) (v : JsonVal)
    (h : (objLookup fs k').isSome) : (objLookup (objSet fs k v) k').isSome := by
  by_cases hk : k' = k
  · rw [hk, objLookup_objSet_self]
    rfl
  · rwa [objLookup_objSet_ne _ _ _ _ hk]

lemma applyNewStrings_nil (st : List (String × JsonVal)) :
    applyNewStrings st [] = st := rfl

lemma applyNewStrings_cons (st : List (String × JsonVal)) (kv : String × String)
    (tl : List (String × String)) :
    applyNewStrings st (kv :: tl) =
      applyNewStrings (objSet st kv.1 (mergeEntryStep (objLookup st kv.1) kv.2)) tl := rfl

lemma applyNewStrings_lookup_not_mem (l : List (String × String))
    (st : List (String × JsonVal)) (k : String) (h : k ∉ l.map Prod.fst) :
    objLookup (applyNewStrings st l) k = objLookup st k := by
  induction l generalizing st with
  | nil => rfl
  | cons kv tl ih =>
    have hk0 : k ≠ kv.1 := by
      intro hc
      exact h (by simp [hc])
    have htl : k ∉ tl.map Prod.fst := by
      intro hc
      exact h (by simp [hc])
    rw [applyNewStrings_cons, ih _ htl, objLookup_objSet_ne _ _ _ _ hk0]

lemma applyNewStrings_lookup_isSome (l : List (String × String))
    (st : List (String × JsonVal)) (k : String) (h : (objLookup st k).isSome) :
    (objLookup (applyNewStrings st l) k).isSome := by
  induction l generalizing st with
  | nil => exact h
  | cons kv tl ih =>
    rw [applyNewStrings_cons]
    exact ih _ (objLookup_objSet_isSome _ _ _ _ h)

lemma applyNewStrings_lookup_mem (l : List (String × String))
    (st : List (String × JsonVal)) (k : String) (v : String)
    (hnd : (l.map Prod.fst).Nodup) (hkv : (k, v) ∈ l) :
    objLookup (applyNewStrings st l) k = some (mergeEntryStep (objLookup st k) v) := by
  induction l generalizing st with
  | nil => simp at hkv
  | cons kv tl ih =>
    rw [List.map_cons, List.nodup_cons] at hnd
    rcases List.mem_cons.1 hkv with hhd | htl
    · have hk : kv.1 = k := by rw [← hhd]
      have hv : kv.2 = v := by rw [← hhd]
      have hnotin : k ∉ tl.map Prod.fst := hk ▸ hnd.1
      rw [applyNewStrings_cons,
        applyNewStrings_lookup_not_mem _ _ _ hnotin, hk, hv,
        objLookup_objSet_self]
    · have hk0 : k ≠ kv.1 := fun hc =>
        hnd.1 (hc ▸ List.mem_map_of_mem Prod.fst htl)
      rw [applyNewStrings_cons, ih _ hnd.2 htl,
        objLookup_objSet_ne _ _ _ _ hk0]

lemma mergeStringCatalog_parsed_strings (j : JsonVal) (st0 : List (String × JsonVal))
    (l : List (String × String)) (h : j.field "strings" = some (.obj st0)) :
    (mergeStringCatalog l (.parsed j)).field "strings" =
      some (.obj (applyNewStrings st0 l)) := by
  simp only [mergeStringCatalog, h]
  simp [JsonVal.field, objLookup]

/-- C2.  Merging updates only the default language: the merged catalog's
`strings` object is the add-or-update fold over the new defaults; for a key
`k` present in the parsed existing catalog (with the expected entry shape),
the merged entry replaces only the `en` localization with
`{stringUnit: {state: "translated", value}}`, keeps every other language's
localization byte-identical, and keeps every other entry field; for a key
absent from the existing catalog a fresh entry with only the `en`
localization is inserted. -/
theorem mergeStringCatalog_updates_only_default_language
    (j : JsonVal) (st0 : List (String × JsonVal)) (newStrings : List (String × String))
    (k v : String)
    (hstr : j.field "strings" = some (.obj st0))
    (hnd : (newStrings.map Prod.fst).Nodup)
    (hkv : (k, v) ∈ newStrings) :
    (mergeStringCatalog newStrings (.parsed j)).field "strings" =
      some (.obj (applyNewStrings st0 newStrings)) ∧
    (∀ efs lfs, objLookup st0 k = some (.obj efs) →
      objLookup efs "localizations" = some (.obj lfs) →
      objLookup (applyNewStrings st0 newStrings) k =
        some (.obj (objSet efs "localizations"
          (.obj (objSet lfs "en" (enLocalization v))))) ∧
      objLookup (objSet lfs "en" (enLocalization v)) "en" = some (enLocalization v) ∧
      (∀ lang, lang ≠ "en" →
        objLookup (objSet lfs "en" (enLocalization v)) lang = objLookup lfs lang) ∧
      (∀ f, f ≠ "localizations" →
        objLookup (objSet efs "localizations"
          (.obj (objSet lfs "en" (enLocalization v)))) f = objLookup efs f)) ∧
    (objLookup st0 k = none →
      objLookup (applyNewStrings st0 newStrings) k = some (freshCatalogEntry v) ∧
      (freshCatalogEntry v).field "localizations" = some (.obj [("en", enLocalization v)]) ∧
      ∀ lang, lang ≠ "en" → objLookup [("en", enLocalization v)] lang = none) := by
  refine ⟨mergeStringCatalog_parsed_strings _ _ _ hstr, ?_, ?_⟩
  · intro efs lfs hent hloc
    refine ⟨?_, objLookup_objSet_self _ _ _, ?_, ?_⟩
    · rw [applyNewStrings_lookup_mem _ _ _ _ hnd hkv]
      simp [mergeEntryStep, setEnLocalization, JsonVal.truthy, hent, hloc]
    · intro lang hlang
      exact objLookup_objSet_ne _ _ _ _ hlang
    · intro f hf
      exact objLookup_objSet_ne _ _ _ _ hf
  · intro hnone
    refine ⟨?_, rfl, ?_⟩
    · rw [applyNewStrings_lookup_mem _ _ _ _ hnd hkv]
      simp [mergeEntryStep, hnone]
    · intro lang hlang
      have hne : ("en" : String) ≠ lang := fun hc => hlang hc.symm
      simp [objLookup, hne]

/-- Witness for C2: merging `{k: "New"}` into a catalog holding
`{en: "Old", es: "Vieja"}` at `k` replaces only the `en` localization and
leaves the `es` localization untouched. -/
theorem mergeStringCatalog_updates_only_default_language_witness :
    objLookup
        (applyNewStrings
          [("k", .obj [("extractionState", .str "manual"),
            ("localizations", .obj [("en", enLocalization "Old"), ("es", .str "Vieja")])])]
          [("k", "New")]) "k" =
      some (.obj (objSet
        [("extractionState", .str "manual"),
         ("localizations", .obj [("en", enLocalization "Old"), ("es", .str "Vieja")])]
        "localizations"
        (.obj (objSet [("en", enLocalization "Old"), ("es", .str "Vieja")] "en"
          (enLocalization "New"))))) ∧
    objLookup (objSet [("en", enLocalization "Old"), ("es", .str "Vieja")] "en"
        (enLocalization "New")) "es" =
      objLookup [("en", enLocalization "Old"), ("es", .str "Vieja")] "es" := by
  have h := mergeStringCatalog_updates_only_default_language
    (.obj [("sourceLanguage", .str "en"),
      ("strings", .obj
        [("k", .obj [("extractionState", .str "manual"),
          ("localizations", .obj [("en", enLocalization "Old"), ("es", .str "Vieja")])])]),
      ("version", .str "1.0")])
    [("k", .obj [("extractionState", .str "manual"),
      ("localizations", .obj [("en", enLocalization "Old"), ("es", .str "Vieja")])])]
    [("k", "New")] "k" "New" rfl (by decide) (by decide)
  have h2 := h.2.1
    [("extractionState", .str "manual"),
     ("localizations", .obj [("en", enLocalization "Old"), ("es", .str "Vieja")])]
    [("en", enLocalization "Old"), ("es", .str "Vieja")] rfl rfl
  exact ⟨h2.1, h2.2.2.1 "es" (by decide)⟩

/-- C3.  The merge never deletes a key: the merged `strings` object is the
add-or-update fold over the new defaults, every key present in the parsed
existing catalog is still present afterwards, a key absent from the new
defaults keeps its entry unmodified, and merging an empty new-defaults map
returns the existing strings unchanged. -/
theorem mergeStringCatalog_never_deletes
    (j : JsonVal) (st0 : List (String × JsonVal)) (newStrings : List (String × String))
    (k : String)
    (hstr : j.field "strings" = some (.obj st0)) :
    (mergeStringCatalog newStrings (.parsed j)).field "strings" =
      some (.obj (applyNewStrings st0 newStrings)) ∧
    ((objLookup st0 k).isSome → (objLookup (applyNewStrings st0 newStrings) k).isSome) ∧
    (k ∉ newStrings.map Prod.fst →
      objLookup (applyNewStrings st0 newStrings) k = objLookup st0 k) ∧
    applyNewStrings st0 [] = st0 :=
  ⟨mergeStringCatalog_parsed_strings _ _ _ hstr,
   applyNewStrings_lookup_isSome _ _ _,
   applyNewStrings_lookup_not_mem _ _ _,
   rfl⟩

/-- Witness for C3: merging an empty new-defaults map into a catalog holding
`old.key` leaves that key's entry unchanged. -/
theorem mergeStringCatalog_never_deletes_witness :
    objLookup (applyNewStrings [("old.key", freshCatalogEntry "Old")] []) "old.key" =
      objLookup [("old.key", freshCatalogEntry "Old")] "old.key" :=
  (mergeStringCatalog_never_deletes
    (.obj [("sourceLanguage", .str "en"),
      ("strings", .obj [("old.key", freshCatalogEntry "Old")]),
      ("version", .str "1.0")])
    [("old.key", freshCatalogEntry "Old")] [] "old.key" rfl).2.2.1 (by decide)

/-- C6.  A missing or unparsable existing catalog is swallowed: the merge
starts from the empty base catalog with sourceLanguage "en" and version
"1.0", returns normally, and its `strings` object holds exactly the entries
derived from the new-defaults map (a fresh en-only entry per key, nothing
else). -/
theorem mergeStringCatalog_swallows_parse_failure
    (newStrings : List (String × String)) (k v : String)
    (hnd : (newStrings.map Prod.fst).Nodup) :
    mergeStringCatalog newStrings .absent =
      .obj [("sourceLanguage", .str "en"),
            ("strings", .obj (applyNewStrings [] newStrings)),
            ("version", .str "1.0")] ∧
    mergeStringCatalog newStrings .unparsable = mergeStringCatalog newStrings .absent ∧
    ((k, v) ∈ newStrings →
      objLookup (applyNewStrings [] newStrings) k = some (freshCatalogEntry v)) ∧
    (k ∉ newStrings.map Prod.fst → objLookup (applyNewStrings [] newStrings) k = none) := by
  refine ⟨rfl, rfl, ?_, ?_⟩
  · intro hkv
    rw [applyNewStrings_lookup_mem _ _ _ _ hnd hkv]
    simp [mergeEntryStep, objLookup]
  · intro hk
    rw [applyNewStrings_lookup_not_mem _ _ _ hk]
    rfl

/-- Witness for C6: merging `{a: "x"}` over an unparsable catalog yields the
fresh base catalog whose only entry is the fresh en-only entry for `a`. -/
theorem mergeStringCatalog_swallows_parse_failure_witness :
    objLookup (applyNewStrings [] [("a", "x")]) "a" = some (freshCatalogEntry "x") ∧
    objLookup (applyNewStrings [] [("a", "x")]) "b" = none := by
  have h := mergeStringCatalog_swallows_parse_failure [("a", "x")] "a" "x" (by decide)
  have h2 := mergeStringCatalog_swallows_parse_failure [("a", "x")] "b" "x" (by decide)
  exact ⟨h.2.2.1 (by decide), h2.2.2.2 (by decide)⟩

/-! ## Template utilities (src/cli/utils.ts)

`extractVariables` scans a message template with the global regex
dollar-brace-word-brace.  The JavaScript regex engine scans left to right; a
failed match attempt advances one character; a successful match resumes right
after its closing brace (non-overlapping matches). -/

/-- JavaScript word-character class (the same ASCII letters, digits and
underscore matched by the regex word class). -/
def isWordChar (c : Char) : Bool := c.isAlpha || c.isDigit || c = '_'

/-- Models the global-regex scan of `extractVariables` (src/cli/utils.ts
lines 32–42).  The first argument is an explicit step budget: every step
consumes at least one input character, so a budget of the input length is
always sufficient, and `extractVariables` passes exactly that.  On a `$`
followed by an opening brace, a non-empty run of word characters and a
closing brace, the captured word is emitted and scanning resumes after the
closing brace; otherwise scanning advances one character past the `$`. -/
def scanVarsFuel : Nat → List Char → List String
  | 0, _ => []
  | _ + 1, [] => []
  | fuel + 1, c :: rest =>
    if c = '$' then
      match rest with
      | '\x7b' :: rest1 =>
        match rest1.dropWhile isWordChar with
        | '\x7d' :: rest2 =>
          if (rest1.takeWhile isWordChar).isEmpty then scanVarsFuel fuel rest
          else String.mk (rest1.takeWhile isWordChar) :: scanVarsFuel fuel rest2
        | _ => scanVarsFuel fuel rest
      | _ => scanVarsFuel fuel rest
    else scanVarsFuel fuel rest

/-- Models `extractVariables` (src/cli/utils.ts lines 32–42): all
placeholder names in first-occurrence order, duplicates preserved. -/
def extractVariables (message : String) : List String :=
  scanVarsFuel message.data.length message.data

lemma scanVarsFuel_no_dollar (fuel : Nat) (l : List Char)
    (h : ∀ c ∈ l, c ≠ '$') : scanVarsFuel fuel l = [] := by
  induction fuel generalizing l with
  | zero => rfl
  | succ n ih =>
    cases l with
    | nil => rfl
    | cons c rest =>
      have hc : c ≠ '$' := h c (List.mem_cons_self _ _)
      simp only [scanVarsFuel, if_neg hc]
      exact ih rest (fun x hx => h x (List.mem_cons_of_mem _ hx))

/-- C9.  Placeholder extraction is deterministic and order/duplicate
preserving: the spec's example template yields `["a", "b", "a"]`, the empty
template yields `[]`, and any template without a dollar character (hence
without placeholders) yields `[]`. -/
theorem extractVariables_order_and_duplicates :
    extractVariables "$\x7ba\x7d mid $\x7bb\x7d$\x7ba\x7d" = ["a", "b", "a"] ∧
    extractVariables "" = [] ∧
    ∀ msg : String, (∀ c ∈ msg.data, c ≠ '$') → extractVariables msg = [] := by
  refine ⟨rfl, rfl, ?_⟩
  intro msg h
  exact scanVarsFuel_no_dollar _ _ h

/-- Witness for C9: a concrete placeholder-free template extracts nothing. -/
theorem extractVariables_order_and_duplicates_witness :
    extractVariables "Hello world" = [] :=
  extractVariables_order_and_duplicates.2.2 "Hello world" (by decide)

/-! ## State conditions (src/cli/utils.ts, `generateSwiftCondition`) and
app-state sync (src/SiriShortcutsManager.ts, `updateAppState`) -/

/-- The `showWhen` value of a state dialog.  The configuration type allows
booleans, numbers and strings; `otherW` models any other runtime value shape
(its argument is the text JavaScript interpolation would render for it,
used only inside generated comments).  Numbers are modelled as integers,
whose JavaScript rendering is decimal. -/
inductive ShowWhen where
  | boolW (b : Bool)
  | numW (n : Int)
  | strW (s : String)
  | otherW (rendered : String)

/-- Models `generateSwiftCondition` (src/cli/utils.ts lines 47–61): booleans
compare a double read against 1/0, numbers a double read against the number,
strings a string read against the literal, and any other shape falls back to
an existence check. -/
def generateSwiftCondition (stateKey : String) (showWhen : ShowWhen) : String :=
  match showWhen with
  | .boolW b =>
    "defaults.double(forKey: \"" ++ stateKey ++ "\") == " ++ (if b then "1" else "0")
  | .numW n =>
    "defaults.double(forKey: \"" ++ stateKey ++ "\") == " ++ toString n
  | .strW s =>
    "defaults.string(forKey: \"" ++ stateKey ++ "\") == \"" ++ s ++ "\""
  | .otherW _ =>
    "defaults.string(forKey: \"" ++ stateKey ++ "\") != nil"

/-- Runtime meaning of the comparison emitted by `generateSwiftCondition`,
read against the shared store (the generated Swift evaluates this expression
inside the intent process). -/
def evalShowWhen (s : Store) (stateKey : String) (w : ShowWhen) : Bool :=
  match w with
  | .boolW b => decide (storeDoubleFor s stateKey = (if b then 1 else 0))
  | .numW n => decide (storeDoubleFor s stateKey = (n : ℚ))
  | .strW t => decide (storeStringFor s stateKey = some t)
  | .otherW _ => (storeStringFor s stateKey).isSome

/-- A value passed to `updateAppState`: booleans, numbers, strings, a
null/undefined clear, or any other structure together with the result of
`JSON.stringify` on it (`none` when serialization throws, in which case the
key is left untouched). -/
inductive AppStateValue where
  | boolA (b : Bool)
  | numA (q : ℚ)
  | strA (s : String)
  | nullish
  | complexA (serialized : Option String)

/-- Models `updateAppState` (src/SiriShortcutsManager.ts lines 205–247):
each entry is written under `appState_<key>`; booleans are stored as the
numbers 1/0, numbers and strings natively, null/undefined removes the key,
and other structures are stored as their JSON serialization. -/
def updateAppState (s : Store) (state : List (String × AppStateValue)) : Store :=
  state.foldl (fun st kv =>
    match kv.2 with
    | .boolA b => storeSet st ("appState_" ++ kv.1) (.num (if b then 1 else 0))
    | .numA q => storeSet st ("appState_" ++ kv.1) (.num q)
    | .strA t => storeSet st ("appState_" ++ kv.1) (.str t)
    | .nullish => storeRemove st ("appState_" ++ kv.1)
    | .complexA (some j) => storeSet st ("appState_" ++ kv.1) (.str j)
    | .complexA none => st) s

lemma storeGet_storeSet_self (s : Store) (k : String) (v : UDValue) :
    storeGet (storeSet s k v) k = some v := by
  induction s with
  | nil => simp [storeSet, storeGet]
  | cons p t ih =>
    by_cases hp : p.1 = k
    · simp [storeSet, hp, storeGet]
    · simp only [storeSet, if_neg hp, storeGet, if_neg hp]
      exact ih

/-- C7.  Boolean app state is numerically encoded consistently on both
sides: `updateAppState` stores a boolean under `appState_<key>` as the
number 1/0, the synthesized boolean condition evaluated on that store agrees
with boolean equality, and `generateSwiftCondition` emits a double read
compared against 1/0 for booleans, a double read compared against the
number for numbers, a string read compared against the string for strings,
and an existence check for any other shape. -/
theorem boolean_app_state_condition_consistency
    (s : Store) (key : String) (b w : Bool) (sk t other : String) (n : Int) :
    storeGet (updateAppState s [(key, .boolA b)]) ("appState_" ++ key) =
      some (.num (if b then 1 else 0)) ∧
    evalShowWhen (updateAppState s [(key, .boolA b)]) ("appState_" ++ key) (.boolW w) =
      (b == w) ∧
    generateSwiftCondition sk (.boolW true) =
      "defaults.double(forKey: \"" ++ sk ++ "\") == 1" ∧
    generateSwiftCondition sk (.boolW false) =
      "defaults.double(forKey: \"" ++ sk ++ "\") == 0" ∧
    generateSwiftCondition sk (.numW n) =
      "defaults.double(forKey: \"" ++ sk ++ "\") == " ++ toString n ∧
    generateSwiftCondition sk (.strW t) =
      "defaults.string(forKey: \"" ++ sk ++ "\") == \"" ++ t ++ "\"" ∧
    generateSwiftCondition sk (.otherW other) =
      "defaults.string(forKey: \"" ++ sk ++ "\") != nil" := by
  have hget : storeGet (updateAppState s [(key, .boolA b)]) ("appState_" ++ key) =
      some (.num (if b then 1 else 0)) := by
    simp only [updateAppState, List.foldl_cons, List.foldl_nil]
    exact storeGet_storeSet_self _ _ _
  refine ⟨hget, ?_, by simp [generateSwiftCondition, String.append_assoc],
    by simp [generateSwiftCondition, String.append_assoc], rfl, rfl, rfl⟩
  have hdouble : storeDoubleFor (updateAppState s [(key, .boolA b)]) ("appState_" ++ key) =
      (if b then 1 else 0) := by
    simp [storeDoubleFor, hget]
  rw [evalShowWhen, hdouble]
  cases b <;> cases w <;> norm_num

/-! ## State dialogs and the generated intent (src/cli/swift-codegen.ts)

`generateStateDialogSwift` emits the Swift guard for one state dialog.  The
behaviour of the emitted Swift (the `perform()` body produced by
`generateIntentStruct`, src/cli/swift-codegen.ts lines 498–575) is modelled
denotationally by `performIntent` below. -/

/-- Models `escapeForSwift` (src/cli/utils.ts lines 19–26): escape backslash
first, then quote, newline, carriage return and tab. -/
def escapeForSwift (s : String) : String :=
  ((((s.replace "\\" "\\\\").replace "\"" "\\\"").replace "\n" "\\n").replace
    "\r" "\\r").replace "\t" "\\t"

/-- Models `generateMessageInterpolation` (src/cli/swift-codegen.ts lines
32–64): with no placeholders the (localized or literal) message expression,
otherwise a `var message` declaration followed by one replacement block per
extracted variable (string read first, numeric read as fallback). -/
def generateMessageInterpolation (message localizationKey : String)
    (useLocalization : Bool) : String :=
  let vars := extractVariables message
  if vars.length = 0 then
    if useLocalization then
      "String(localized: \"" ++ localizationKey ++ "\", defaultValue: \"" ++
        escapeForSwift message ++ "\")"
    else
      "\"" ++ escapeForSwift message ++ "\""
  else
    let base :=
      if useLocalization then
        "var message = String(localized: \"" ++ localizationKey ++
          "\", defaultValue: \"" ++ escapeForSwift message ++ "\")\n"
      else
        "var message = \"" ++ escapeForSwift message ++ "\"\n"
    vars.foldl (fun acc varName => acc
      ++ "        // Interpolate " ++ varName ++ "\n"
      ++ "        if let value = defaults.string(forKey: \"appState_" ++ varName
      ++ "\") \x7b\n"
      ++ "            message = message.replacingOccurrences(of: \"$\x7b" ++ varName
      ++ "\x7d\", with: value)\n"
      ++ "        \x7d else if let numValue = defaults.object(forKey: \"appState_"
      ++ varName ++ "\") as? NSNumber \x7b\n"
      ++ "            message = message.replacingOccurrences(of: \"$\x7b" ++ varName
      ++ "\x7d\", with: \"\\(numValue)\")\n"
      ++ "        \x7d\n") base

/-- A state dialog from the configuration (src/types.ts): `showWhen`
triggers on value equality, `requiresConfirmation` defaults to true when
absent (the source tests `!== false`). -/
structure StateDialog where
  stateKey : String
  showWhen : ShowWhen
  message : String
  requiresConfirmation : Option Bool

/-- The JavaScript interpolation text of a `showWhen` value, used in the
generated comment lines. -/
def showWhenText : ShowWhen → String
  | .boolW b => if b then "true" else "false"
  | .numW n => toString n
  | .strW s => s
  | .otherW rendered => rendered

/-- Argument record of `generateStateDialogSwift`
(src/cli/swift-codegen.ts lines 82–90). -/
structure DialogGenParams where
  index : Nat
  className : String
  dialog : StateDialog
  condition : String
  localizationKey : String
  useLocalization : Bool

structure DialogGenResult where
  code : String
  isConfirmation : Bool

/-- Models `generateStateDialogSwift` (src/cli/swift-codegen.ts lines
82–141): inside a guard on the computed condition, a confirmation dialog
emits a `requestConfirmation` block that sets `userConfirmedOverride` on
approval and rethrows on refusal, while a `requiresConfirmation: false`
dialog emits a direct `return .result(dialog: ...)`. -/
def generateStateDialogSwift (p : DialogGenParams) : DialogGenResult :=
  let requiresConfirmation : Bool :=
    match p.dialog.requiresConfirmation with
    | some false => false
    | _ => true
  let hasInterpolation : Bool := (extractVariables p.dialog.message).length > 0
  let messageInterpolation :=
    generateMessageInterpolation p.dialog.message p.localizationKey p.useLocalization
  let messageCode :=
    if hasInterpolation then
      "// Interpolate message with current app state\n            " ++
        messageInterpolation ++ "\n            "
    else ""
  let dialogValue :=
    if hasInterpolation then "message"
    else if p.useLocalization then
      "String(localized: \"" ++ p.localizationKey ++ "\", defaultValue: \"" ++
        escapeForSwift p.dialog.message ++ "\")"
    else "\"" ++ escapeForSwift p.dialog.message ++ "\""
  let actionType := if requiresConfirmation then "confirmation" else "message and return"
  let logMessage :=
    if requiresConfirmation then "Confirmation required"
    else "Showing message (no confirmation)"
  let actionCode :=
    if requiresConfirmation then
      "do \x7b\n                try await requestConfirmation(\n                    result: .result(dialog: IntentDialog(stringLiteral: "
        ++ dialogValue
        ++ "))\n                )\n                // User confirmed - set flag and continue\n                userConfirmedOverride = true\n            \x7d catch \x7b\n                // User cancelled - abort execution (React Native will not be invoked)\n                print(\"["
        ++ p.className
        ++ "] User cancelled confirmation\")\n                throw error\n            \x7d"
    else
      "return .result(dialog: IntentDialog(stringLiteral: " ++ dialogValue ++ "))"
  { code :=
      "\n        // State dialog #" ++ toString (p.index + 1) ++ ": Show " ++ actionType
        ++ " when " ++ p.dialog.stateKey ++ " == " ++ showWhenText p.dialog.showWhen
        ++ "\n        if " ++ p.condition ++ " \x7b\n            print(\"["
        ++ p.className ++ "] " ++ logMessage ++ ": " ++ p.dialog.stateKey ++ " is "
        ++ showWhenText p.dialog.showWhen ++ "\")\n            "
        ++ (messageCode ++ actionCode) ++ "\n        \x7d",
    isConfirmation := requiresConfirmation }

/-- Parameter type tags from the configuration (src/types.ts). -/
inductive ParamType where
  | stringT
  | numberT
  | booleanT
  | dateT
deriving DecidableEq, Repr

/-- A shortcut parameter from the configuration (src/types.ts): the
`optional` flag defaults to true when absent. -/
structure ShortcutParameter where
  name : String
  title : String
  type : ParamType
  optional : Option Bool
  description : Option String

/-- A shortcut definition from the configuration (src/types.ts).  Absent
optional lists are modelled as empty lists (the generator only tests
presence together with non-zero length). -/
structure ShortcutDefinition where
  identifier : String
  title : String
  phrases : List String
  systemImageName : Option String := none
  description : Option String := none
  stateDialogs : List StateDialog := []
  parameters : List ShortcutParameter := []

/-- A resolved runtime value of an intent parameter (dates carry their
`timeIntervalSince1970`). -/
inductive ParamVal where
  | strP (s : String)
  | numP (q : ℚ)
  | boolP (b : Bool)
  | dateP (seconds : ℚ)

/-- Decimal rendering used for the numeric fallback of the generated
interpolation (`"\(numValue)"` on an NSNumber).  Integral values render
without a fraction; non-integral rendering is approximated by the rational
literal (no claim depends on it). -/
def jsNumText (q : ℚ) : String :=
  if q.den = 1 then toString q.num else toString q

/-- Runtime meaning of the interpolation code emitted by
`generateMessageInterpolation` (src/cli/swift-codegen.ts lines 54–61): for
each extracted variable, all occurrences of its placeholder are replaced by
the string value stored at `appState_<var>`, else by the rendered numeric
value if a number or boolean is stored there, else left untouched. -/
def interpolateMessage (s : Store) (message : String) : String :=
  (extractVariables message).foldl (fun m v =>
    match storeStringFor s ("appState_" ++ v) with
    | some value => m.replace ("$\x7b" ++ v ++ "\x7d") value
    | none =>
      match storeGet s ("appState_" ++ v) with
      | some (.num q) => m.replace ("$\x7b" ++ v ++ "\x7d") (jsNumText q)
      | some (.boolV b) => m.replace ("$\x7b" ++ v ++ "\x7d") (if b then "1" else "0")
      | _ => m) message

/-- Environment of one execution of the generated `perform()` body:
whether the App Group store is accessible, the user's answers to successive
confirmation requests, the resolved value of each parameter after the
request phase, the generated nonce, the current timestamp, and the response
the application publishes under the nonce key during the poll window
(`none` when none arrives before the timeout). -/
structure IntentEnv where
  appGroupOk : Bool
  confirmAnswer : Nat → Bool
  paramValue : String → ParamVal
  nonce : String
  now : ℚ
  response : Option String

/-- Outcome of the state-dialog phase, tracking how many confirmation
requests were issued. -/
inductive DialogOutcome where
  | earlyReturn (message : String) (confirmsRequested : Nat)
  | aborted (confirmsRequested : Nat)
  | proceed (userConfirmed : Bool) (confirmsRequested : Nat)
deriving Repr

/-- Runtime meaning of the dialog blocks emitted in declaration order
(src/cli/swift-codegen.ts lines 432–476 together with the per-dialog code of
`generateStateDialogSwift`): a firing dialog requiring confirmation asks the
user and either continues with the flag set or aborts the whole execution; a
firing dialog with `requiresConfirmation: false` returns the interpolated
message immediately. -/
def runDialogs (s : Store) (answer : Nat → Bool) :
    List StateDialog → Nat → Bool → DialogOutcome
  | [], c, flag => .proceed flag c
  | d :: ds, c, flag =>
    if evalShowWhen s ("appState_" ++ d.stateKey) d.showWhen then
      match d.requiresConfirmation with
      | some false => .earlyReturn (interpolateMessage s d.message) c
      | _ =>
        if answer c then runDialogs s answer ds (c + 1) true
        else .aborted (c + 1)
    else runDialogs s answer ds c flag

/-- Whether any dialog requires confirmation (drives the declaration and
publication of `userConfirmedOverride`, src/cli/swift-codegen.ts lines
453–470 and 521–526). -/
def hasConfirmationDialogs (dialogs : List StateDialog) : Bool :=
  dialogs.any (fun d =>
    match d.requiresConfirmation with
    | some false => false
    | _ => true)

/-- Runtime meaning of one generated parameter write
(src/cli/swift-codegen.ts lines 331–377): dates are written as seconds plus
a `date` type tag, booleans natively plus a `boolean` type tag, strings and
numbers directly with no tag.  A value whose shape does not match the
declared type cannot arise from the typed Swift property and leaves the
store unchanged. -/
def writeParam (s : Store) (p : ShortcutParameter) (v : ParamVal) : Store :=
  match p.type, v with
  | .dateT, .dateP t =>
    storeSet (storeSet s ("IosIntentsParam_" ++ p.name) (.num t))
      ("IosIntentsParamType_" ++ p.name) (.str "date")
  | .booleanT, .boolP b =>
    storeSet (storeSet s ("IosIntentsParam_" ++ p.name) (.boolV b))
      ("IosIntentsParamType_" ++ p.name) (.str "boolean")
  | .stringT, .strP t => storeSet s ("IosIntentsParam_" ++ p.name) (.str t)
  | .numberT, .numP q => storeSet s ("IosIntentsParam_" ++ p.name) (.num q)
  | _, _ => s

def writeParams (s : Store) (params : List ShortcutParameter) (env : IntentEnv) : Store :=
  params.foldl (fun st p => writeParam st p (env.paramValue p.name)) s

/-- Result classification of one generated `perform()` execution. -/
inductive IntentOutcome where
  | errorNoAppGroup (message : String)
  | dialogOnly (message : String)
  | cancelled
  | responded (message : String)
  | timedOut (message : String)

/-- Observable trace of one generated `perform()` execution: the outcome,
the final shared store, whether the command was published, the Darwin
notification posted, the response poll entered, and how many confirmation
requests were issued. -/
structure PerformTrace where
  outcome : IntentOutcome
  store : Store
  published : Bool
  notified : Bool
  polled : Bool
  confirmsRequested : Nat

/-- Denotational model of the `perform()` body emitted by
`generateIntentStruct` (src/cli/swift-codegen.ts lines 498–575,
non-localized path): guard on App Group access, run the state dialogs in
order, then write the parameters, pending command, nonce, timestamp and
(when confirmation dialogs exist) the confirmation flag, post the Darwin
notification, and poll for a response under the nonce key, deleting it on
sight, falling back to the "Done" reply on timeout. -/
def performIntent (sc : ShortcutDefinition) (s : Store) (env : IntentEnv) : PerformTrace :=
  if env.appGroupOk = false then
    { outcome := .errorNoAppGroup "Failed to communicate with app", store := s,
      published := false, notified := false, polled := false, confirmsRequested := 0 }
  else
    match runDialogs s env.confirmAnswer sc.stateDialogs 0 false with
    | .earlyReturn msg c =>
      { outcome := .dialogOnly msg, store := s, published := false, notified := false,
        polled := false, confirmsRequested := c }
    | .aborted c =>
      { outcome := .cancelled, store := s, published := false, notified := false,
        polled := false, confirmsRequested := c }
    | .proceed flag c =>
      let s1 := writeParams s sc.parameters env
      let s2 := storeSet (storeSet (storeSet s1
          "IosIntentsPendingCommand" (.str sc.identifier))
          "IosIntentsCommandNonce" (.str env.nonce))
          "IosIntentsCommandTimestamp" (.num env.now)
      let s3 :=
        if hasConfirmationDialogs sc.stateDialogs then
          storeSet s2 "IosIntentsUserConfirmed" (.boolV flag)
        else s2
      match env.response with
      | some r =>
        { outcome := .responded r,
          store := storeRemove
            (storeSet s3 ("IosIntentsResponse_" ++ env.nonce) (.str r))
            ("IosIntentsResponse_" ++ env.nonce),
          published := true, notified := true, polled := true, confirmsRequested := c }
      | none =>
        { outcome := .timedOut "Done", store := s3, published := true, notified := true,
          polled := true, confirmsRequested := c }

lemma runDialogs_skip_unfired (s : Store) (answer : Nat → Bool)
    (pre rest : List StateDialog) (c : Nat) (flag : Bool)
    (hpre : ∀ d ∈ pre, evalShowWhen s ("appState_" ++ d.stateKey) d.showWhen = false) :
    runDialogs s answer (pre ++ rest) c flag = runDialogs s answer rest c flag := by
  induction pre with
  | nil => rfl
  | cons d tl ih =>
    have hd := hpre d (List.mem_cons_self _ _)
    simp only [List.cons_append, runDialogs, hd]
    simp only [Bool.false_eq_true, if_false]
    exact ih (fun x hx => hpre x (List.mem_cons_of_mem _ hx))

/-- C4.  A firing state dialog with `requiresConfirmation: false` (no earlier
dialog having fired) makes the generated intent return the interpolated
message directly: the execution trace shows the message as the result, the
store untouched, no command publication, no notification, no polling and no
confirmation request; and the generator marks such a dialog as
non-confirmation. -/
theorem stateDialog_without_confirmation_returns_directly
    (sc : ShortcutDefinition) (s : Store) (env : IntentEnv)
    (pre post : List StateDialog) (d : StateDialog)
    (hdialogs : sc.stateDialogs = pre ++ d :: post)
    (hok : env.appGroupOk = true)
    (hpre : ∀ d' ∈ pre, evalShowWhen s ("appState_" ++ d'.stateKey) d'.showWhen = false)
    (hfire : evalShowWhen s ("appState_" ++ d.stateKey) d.showWhen = true)
    (hnoconf : d.requiresConfirmation = some false) :
    performIntent sc s env =
      { outcome := .dialogOnly (interpolateMessage s d.message), store := s,
        published := false, notified := false, polled := false,
        confirmsRequested := 0 } ∧
    ∀ gp : DialogGenParams, gp.dialog = d →
      (generateStateDialogSwift gp).isConfirmation = false := by
  constructor
  · have hrun : runDialogs s env.confirmAnswer sc.stateDialogs 0 false =
        .earlyReturn (interpolateMessage s d.message) 0 := by
      rw [hdialogs, runDialogs_skip_unfired s _ pre _ 0 false hpre]
      simp [runDialogs, hfire, hnoconf]
    simp [performIntent, hok, hrun]
  · intro gp hgp
    simp [generateStateDialogSwift, hgp, hnoconf]

/-- Witness for C4: a `stopTimer`-style shortcut whose only dialog fires
without confirmation returns the message directly and leaves the store,
publication, notification and poll untouched. -/
theorem stateDialog_without_confirmation_returns_directly_witness :
    performIntent
      { identifier := "stopTimer", title := "Stop Timer", phrases := ["stop timer"],
        stateDialogs := [{ stateKey := "running", showWhen := .boolW true,
                           message := "Timer running",
                           requiresConfirmation := some false }] }
      [("appState_running", .num 1)]
      { appGroupOk := true, confirmAnswer := fun _ => true,
        paramValue := fun _ => .strP "", nonce := "N", now := 0, response := none } =
      { outcome := .dialogOnly
          (interpolateMessage [("appState_running", .num 1)] "Timer running"),
        store := [("appState_running", .num 1)], published := false, notified := false,
        polled := false, confirmsRequested := 0 } :=
  (stateDialog_without_confirmation_returns_directly _ _ _ [] []
    { stateKey := "running", showWhen := .boolW true,
      message := "Timer running", requiresConfirmation := some false }
    rfl rfl (by simp) (by decide) rfl).1

/-! ## Phrase-table merge (src/cli/utils.ts, `mergeAppShortcutsStrings`)

The retained-line regex is anchored at the line start only; its quoted
bodies consist of characters other than a bare quote, with backslash
escaping the following character.  The body token run is deterministic (no
backtracking can change the outcome, since a match resumption point would
have to be a bare quote, which the body can never end in front of after
giving back a token), so a maximal-munch scan decides it. -/

/-- JavaScript whitespace class as used by the line grammar (inputs are
single lines, so the practically occurring members are space and tab;
exotic Unicode space classes are not modelled). -/
def isJsSpace (c : Char) : Bool :=
  c = ' ' || c = '\t' || c = '\n' || c = '\r' || c = '\x0b' || c = '\x0c'

/-- Consumes a quoted-body token run: any character other than a bare
quote, a backslash escaping the following character.  Returns the remaining
input (beginning at the terminating bare quote, or empty), or `none` when a
trailing backslash has nothing left to escape. -/
def munchBody : List Char → Option (List Char)
  | [] => some []
  | '"' :: r => some ('"' :: r)
  | '\\' :: [] => none
  | '\\' :: _ :: r => munchBody r
  | _ :: r => munchBody r

/-- Decides whether a line matches the retained-line regex of
`mergeAppShortcutsStrings` (src/cli/utils.ts line 256): a quoted key, an
equals sign surrounded by optional whitespace, a quoted value and a
semicolon, anchored at the line start only (trailing content is allowed). -/
def matchesPhraseLine (line : String) : Bool :=
  match line.data with
  | '"' :: r1 =>
    match munchBody r1 with
    | some ('"' :: r2) =>
      match r2.dropWhile isJsSpace with
      | '=' :: r4 =>
        match r4.dropWhile isJsSpace with
        | '"' :: r6 =>
          match munchBody r6 with
          | some ('"' :: r7) =>
            match r7 with
            | ';' :: _ => true
            | _ => false
          | _ => false
        | _ => false
      | _ => false
    | _ => false
  | _ => false

/-- Insertion into the JavaScript `Set`: a no-op when the element is already
present, otherwise appended (JavaScript sets preserve insertion order). -/
def setAdd (l : List String) (x : String) : List String :=
  if x ∈ l then l else l ++ [x]

/-- The identity line appended for a new phrase
(src/cli/utils.ts line 266). -/
def identityEntry (phrase : String) : String :=
  "\"" ++ phrase ++ "\" = \"" ++ phrase ++ "\";"

/-- The retained-lines pass of `mergeAppShortcutsStrings` (src/cli/utils.ts
lines 249–262): split the existing content on newlines and collect, in
order, every line matching the grammar, verbatim. -/
def retainedLines (content : String) : List String :=
  (content.splitOn "\n").foldl
    (fun acc line => if matchesPhraseLine line then setAdd acc line else acc) []

/-- The new-phrase pass (src/cli/utils.ts lines 265–271): append the
identity line of each phrase whose quoted key does not already begin some
collected line. -/
def addNewPhrases (acc : List String) (newPhrases : List String) : List String :=
  newPhrases.foldl
    (fun acc p =>
      if acc.any (fun l => jsStartsWith l ("\"" ++ p ++ "\"")) then acc
      else setAdd acc (identityEntry p)) acc

def mergedLines (newPhrases : List String) (existingContent : Option String) :
    List String :=
  addNewPhrases
    (match existingContent with
     | some c => retainedLines c
     | none => [])
    newPhrases

/-- Models `Array.from(phrases).join('\n')`. -/
def joinLines : List String → String
  | [] => ""
  | [x] => x
  | x :: xs => x ++ "\n" ++ joinLines xs

/-- Models `mergeAppShortcutsStrings` (src/cli/utils.ts lines 243–274). -/
def mergeAppShortcutsStrings (newPhrases : List String)
    (existingContent : Option String) : String :=
  joinLines (mergedLines newPhrases existingContent)

lemma mem_setAdd (acc : List String) (x y : String) :
    x ∈ setAdd acc y ↔ (x ∈ acc ∨ x = y) := by
  by_cases h : y ∈ acc
  · simp only [setAdd, if_pos h]
    exact ⟨Or.inl, fun h' => h'.elim id (fun hx => hx ▸ h)⟩
  · simp [setAdd, h]

lemma mem_retainedFold (lines : List String) (acc : List String) (l : String) :
    l ∈ lines.foldl
        (fun acc line => if matchesPhraseLine line then setAdd acc line else acc) acc ↔
      (l ∈ acc ∨ (l ∈ lines ∧ matchesPhraseLine l)) := by
  induction lines generalizing acc with
  | nil => simp
  | cons x tl ih =>
    by_cases hx : matchesPhraseLine x
    · simp only [List.foldl_cons, if_pos hx, ih, mem_setAdd]
      constructor
      · rintro ((h | h) | h)
        · exact Or.inl h
        · exact Or.inr ⟨h ▸ List.mem_cons_self _ _, h ▸ hx⟩
        · exact Or.inr ⟨List.mem_cons_of_mem _ h.1, h.2⟩
      · rintro (h | ⟨hmem, hm⟩)
        · exact Or.inl (Or.inl h)
        · rcases List.mem_cons.1 hmem with he | ht
          · exact Or.inl (Or.inr he)
          · exact Or.inr ⟨ht, hm⟩
    · simp only [List.foldl_cons, if_neg hx, ih]
      constructor
      · rintro (h | h)
        · exact Or.inl h
        · exact Or.inr ⟨List.mem_cons_of_mem _ h.1, h.2⟩
      · rintro (h | ⟨hmem, hm⟩)
        · exact Or.inl h
        · rcases List.mem_cons.1 hmem with he | ht
          · exact absurd (he ▸ hm) hx
          · exact Or.inr ⟨ht, hm⟩

lemma mem_retainedLines_iff (c : String) (l : String) :
    l ∈ retainedLines c ↔ (l ∈ c.splitOn "\n" ∧ matchesPhraseLine l) := by
  rw [retainedLines, mem_retainedFold]
  simp

lemma jsStartsWith_identityEntry (p : String) :
    jsStartsWith (identityEntry p) ("\"" ++ p ++ "\"") = true := by
  rw [jsStartsWith, List.isPrefixOf_iff_prefix]
  refine ⟨(" = \"" ++ p ++ "\";").data, ?_⟩
  simp [identityEntry, String.data_append]

lemma addNewPhrases_decomp (nps : List String) (acc : List String) :
    ∃ app, addNewPhrases acc nps = acc ++ app ∧
      ∀ l ∈ app, ∃ p ∈ nps, l = identityEntry p := by
  induction nps generalizing acc with
  | nil => exact ⟨[], by simp [addNewPhrases], by simp⟩
  | cons p tl ih =>
    by_cases hrep : acc.any (fun l => jsStartsWith l ("\"" ++ p ++ "\"")) = true
    · have hstep : addNewPhrases acc (p :: tl) = addNewPhrases acc tl := by
        simp only [addNewPhrases, List.foldl_cons]
        rw [if_pos hrep]
      obtain ⟨app, happ, hmem⟩ := ih acc
      refine ⟨app, ?_, ?_⟩
      · rw [hstep, happ]
      · exact fun l hl => (hmem l hl).imp (fun q hq => ⟨List.mem_cons_of_mem _ hq.1, hq.2⟩)
    · have hnotin : identityEntry p ∉ acc := by
        intro hmem
        exact hrep (List.any_eq_true.2 ⟨identityEntry p, hmem, jsStartsWith_identityEntry p⟩)
      have hsa : setAdd acc (identityEntry p) = acc ++ [identityEntry p] := by
        simp only [setAdd]
        rw [if_neg hnotin]
      have hstep : addNewPhrases acc (p :: tl) =
          addNewPhrases (acc ++ [identityEntry p]) tl := by
        simp only [addNewPhrases, List.foldl_cons]
        rw [if_neg hrep, hsa]
      obtain ⟨app, happ, hmem⟩ := ih (acc ++ [identityEntry p])
      refine ⟨identityEntry p :: app, ?_, ?_⟩
      · rw [hstep, happ, List.append_assoc]
        rfl
      · intro l hl
        rcases List.mem_cons.1 hl with he | ht
        · exact ⟨p, List.mem_cons_self _ _, he⟩
        · exact (hmem l ht).imp (fun q hq => ⟨List.mem_cons_of_mem _ hq.1, hq.2⟩)

/-- C5.  Phrase-table merge: the merged line list is the retained existing
lines (in original order) followed by appended lines, each of which is the
identity entry of some input phrase (input order is the fold order); a line
is retained exactly when it occurs in the existing content and matches the
line grammar; every input phrase's quoted key begins some merged line; and
merging `["A", "A"]` into an empty table yields exactly the single line
`"A" = "A";`. -/
theorem mergeAppShortcutsStrings_structure
    (newPhrases : List String) (c : String) :
    (∃ app, mergedLines newPhrases (some c) = retainedLines c ++ app ∧
      ∀ l ∈ app, ∃ p ∈ newPhrases, l = identityEntry p) ∧
    (∀ l, l ∈ retainedLines c ↔ (l ∈ c.splitOn "\n" ∧ matchesPhraseLine l)) ∧
    (∀ p ∈ newPhrases, ∃ l ∈ mergedLines newPhrases (some c),
      jsStartsWith l ("\"" ++ p ++ "\"") = true) ∧
    mergeAppShortcutsStrings newPhrases (some c) = joinLines (mergedLines newPhrases (some c)) ∧
    mergeAppShortcutsStrings ["A", "A"] none = "\"A\" = \"A\";" := by
  refine ⟨addNewPhrases_decomp newPhrases (retainedLines c),
    fun l => mem_retainedLines_iff c l, ?_, rfl, by decide⟩
  have key : ∀ (nps : List String) (acc : List String) (p : String), p ∈ nps →
      ∃ l ∈ addNewPhrases acc nps, jsStartsWith l ("\"" ++ p ++ "\"") = true := by
    intro nps
    induction nps with
    | nil => intro acc p hp; simp at hp
    | cons q tl ih =>
      intro acc p hp
      by_cases hrep : acc.any (fun l => jsStartsWith l ("\"" ++ q ++ "\"")) = true
      · have hstep : addNewPhrases acc (q :: tl) = addNewPhrases acc tl := by
          simp only [addNewPhrases, List.foldl_cons]
          rw [if_pos hrep]
        rcases List.mem_cons.1 hp with he | ht
        · obtain ⟨l, hl, hpre⟩ := List.any_eq_true.1 hrep
          obtain ⟨app, happ, -⟩ := addNewPhrases_decomp tl acc
          refine ⟨l, ?_, he ▸ hpre⟩
          rw [hstep, happ]
          exact List.mem_append_left _ hl
        · rw [hstep]
          exact ih acc p ht
      · have hstep : addNewPhrases acc (q :: tl) =
            addNewPhrases (setAdd acc (identityEntry q)) tl := by
          simp only [addNewPhrases, List.foldl_cons]
          rw [if_neg hrep]
        rcases List.mem_cons.1 hp with he | ht
        · obtain ⟨app, happ, -⟩ := addNewPhrases_decomp tl (setAdd acc (identityEntry q))
          refine ⟨identityEntry q, ?_, he ▸ jsStartsWith_identityEntry q⟩
          rw [hstep, happ]
          refine List.mem_append_left _ ?_
          rw [mem_setAdd]
          exact Or.inr rfl
        · rw [hstep]
          exact ih _ p ht
  exact fun p hp => key newPhrases (retainedLines c) p hp

/-- Witness for C5 at concrete inputs: an existing table with one matching
and one malformed line plus one duplicated new phrase merges to the
retained line followed by the identity entry, and the retained-line
characterization holds for the matching line. -/
theorem mergeAppShortcutsStrings_structure_witness :
    (∃ app, mergedLines ["B", "B"] (some "\"A\" = \"Eh\";\nmalformed") =
      retainedLines "\"A\" = \"Eh\";\nmalformed" ++ app ∧
      ∀ l ∈ app, ∃ p ∈ ["B", "B"], l = identityEntry p) ∧
    ("\"A\" = \"Eh\";" ∈ retainedLines "\"A\" = \"Eh\";\nmalformed" ↔
      ("\"A\" = \"Eh\";" ∈ ("\"A\" = \"Eh\";\nmalformed").splitOn "\n" ∧
        matchesPhraseLine "\"A\" = \"Eh\";")) := by
  have h := mergeAppShortcutsStrings_structure ["B", "B"] "\"A\" = \"Eh\";\nmalformed"
  exact ⟨h.1, h.2.1 "\"A\" = \"Eh\";"⟩


/-! ## Parameter declarations (src/cli/swift-codegen.ts,
`generateParameterDeclarations`) -/

/-- Models `mapParameterTypeToSwift` (src/cli/swift-codegen.ts lines
153–164): every Swift storage type is optional, for every type tag. -/
def mapParameterTypeToSwift : ParamType → String
  | .stringT => "String?"
  | .numberT => "Double?"
  | .booleanT => "Bool?"
  | .dateT => "Date?"

/-- One declaration emitted by `generateParameterDeclarations`
(src/cli/swift-codegen.ts lines 192–210). -/
def paramDeclaration (useLocalization : Bool) (shortcutIdentifier : String)
    (index : Nat) (param : ShortcutParameter) : String :=
  let titleValue :=
    if useLocalization then
      "LocalizedStringResource(\"" ++ shortcutIdentifier ++ ".parameters."
        ++ toString index ++ ".title\", defaultValue: \""
        ++ escapeForSwift param.title ++ "\")"
    else
      "LocalizedStringResource(\"" ++ escapeForSwift param.title ++ "\")"
  let descriptionPart :=
    match param.description with
    | some d =>
      if useLocalization then
        ", description: LocalizedStringResource(\"" ++ shortcutIdentifier
          ++ ".parameters." ++ toString index ++ ".description\", defaultValue: \""
          ++ escapeForSwift d ++ "\")"
      else
        ", description: LocalizedStringResource(\"" ++ escapeForSwift d ++ "\")"
    | none => ""
  "    @Parameter(title: " ++ titleValue ++ descriptionPart ++ ")\n    "
    ++ ("var " ++ param.name ++ ": " ++ mapParameterTypeToSwift param.type)

/-- Models `generateParameterDeclarations` (src/cli/swift-codegen.ts lines
183–214): empty for an empty parameter list, otherwise the newline-joined
declarations wrapped in single newlines. -/
def generateParameterDeclarations (parameters : List ShortcutParameter)
    (useLocalization : Bool) (shortcutIdentifier : String) : String :=
  if parameters.length = 0 then ""
  else
    "\n" ++ joinLines (parameters.enum.map
      (fun ip => paramDeclaration useLocalization shortcutIdentifier ip.1 ip.2)) ++ "\n"

lemma joinLines_data_decomp (l : List String) (x : String) (h : x ∈ l) :
    ∃ a b, (joinLines l).data = a ++ x.data ++ b := by
  induction l with
  | nil => cases h
  | cons y tl ih =>
    rcases List.mem_cons.1 h with he | ht
    · subst he
      cases tl with
      | nil => exact ⟨[], [], by simp [joinLines]⟩
      | cons z zs =>
        exact ⟨[], ("\n" ++ joinLines (z :: zs)).data,
          by simp [joinLines, String.data_append]⟩
    · cases tl with
      | nil => cases ht
      | cons z zs =>
        obtain ⟨a, b, hab⟩ := ih ht
        refine ⟨(y ++ "\n").data ++ a, b, ?_⟩
        simp only [joinLines, String.data_append, List.append_assoc] at *
        rw [hab]

/-- C8.  Parameter declarations never depend on the `optional` flag and
always use an optional Swift storage type: rewriting every parameter's
`optional` field arbitrarily leaves the generated declarations unchanged,
every Swift type emitted for a type tag ends in `?`, and each parameter's
declaration text `var <name>: <optional type>` occurs in the generated
output. -/
theorem parameter_declarations_always_optional
    (params : List ShortcutParameter) (useLoc : Bool) (sid : String)
    (f : ShortcutParameter → Option Bool) :
    generateParameterDeclarations
        (params.map (fun p => { p with optional := f p })) useLoc sid =
      generateParameterDeclarations params useLoc sid ∧
    (∀ t : ParamType, ∃ base, mapParameterTypeToSwift t = base ++ "?") ∧
    (∀ (i : Nat) (p : ShortcutParameter), params[i]? = some p →
      ∃ pre post, (generateParameterDeclarations params useLoc sid).data =
        pre ++ ("var " ++ p.name ++ ": " ++ mapParameterTypeToSwift p.type).data
          ++ post) := by
  refine ⟨?_, ?_, ?_⟩
  · have hmap : (params.map (fun p => { p with optional := f p })).enum.map
        (fun ip => paramDeclaration useLoc sid ip.1 ip.2) =
          params.enum.map (fun ip => paramDeclaration useLoc sid ip.1 ip.2) := by
      rw [List.enum_map, List.map_map]
      apply List.map_congr_left
      intro ip _
      rfl
    simp only [generateParameterDeclarations, List.length_map, hmap]
  · intro t
    cases t
    · exact ⟨"String", rfl⟩
    · exact ⟨"Double", rfl⟩
    · exact ⟨"Bool", rfl⟩
    · exact ⟨"Date", rfl⟩
  · intro i p hget
    have hne : ¬ params.length = 0 := by
      intro h0
      rw [List.length_eq_zero.1 h0] at hget
      simp at hget
    have hmem : (i, p) ∈ params.enum := by
      rw [List.mem_enum_iff_getElem?]
      exact hget
    have hdeclmem : paramDeclaration useLoc sid i p ∈
        params.enum.map (fun ip => paramDeclaration useLoc sid ip.1 ip.2) :=
      List.mem_map.2 ⟨(i, p), hmem, rfl⟩
    obtain ⟨a, b, hab⟩ := joinLines_data_decomp _ _ hdeclmem
    obtain ⟨head, hhead⟩ : ∃ head : String, paramDeclaration useLoc sid i p =
        head ++ ("var " ++ p.name ++ ": " ++ mapParameterTypeToSwift p.type) :=
      ⟨_, rfl⟩
    rw [hhead] at hab
    have hunfold : generateParameterDeclarations params useLoc sid =
        "\n" ++ joinLines (params.enum.map
          (fun ip => paramDeclaration useLoc sid ip.1 ip.2)) ++ "\n" := by
      simp only [generateParameterDeclarations]
      rw [if_neg hne]
    refine ⟨"\n".data ++ (a ++ head.data), b ++ "\n".data, ?_⟩
    rw [hunfold]
    simp only [String.data_append]
    rw [hab]
    simp [String.data_append, List.append_assoc]

/-- Witness for C8: a concrete required (`optional := some false`) string
parameter still declares `var taskName: String?`. -/
theorem parameter_declarations_always_optional_witness :
    ∃ pre post,
      (generateParameterDeclarations
        [{ name := "taskName", title := "Task Name", type := .stringT,
           optional := some false, description := none }] false "addTask").data =
        pre ++ ("var " ++ "taskName" ++ ": " ++ mapParameterTypeToSwift .stringT).data
          ++ post :=
  (parameter_declarations_always_optional
    [{ name := "taskName", title := "Task Name", type := .stringT,
       optional := some false, description := none }] false "addTask"
    (fun _ => none)).2.2 0
    { name := "taskName", title := "Task Name", type := .stringT,
      optional := some false, description := none } rfl

/-! ## Invocation delivery to listeners (src/SiriShortcutsManager.ts) and
the generated type surface (src/cli/utils.ts, `generateTypeScriptTypes`) -/

/-- The parameter map delivered from native to JavaScript. -/
abbrev ParamMap := List (String × ParamVal)

/-- The data the native bridge passes to the JavaScript callback
(src/IosIntents.nitro.ts): `parameters` and `userConfirmed` may be
absent. -/
structure NativeShortcutData where
  identifier : String
  nonce : String
  parameters : Option ParamMap
  userConfirmed : Option Bool

/-- The invocation object handed to every registered listener: its
`parameters` field is always a map (the type is total, never optional). -/
structure ShortcutInvocation where
  identifier : String
  nonce : String
  parameters : ParamMap
  userConfirmed : Option Bool

/-- Models the conversion performed in `ensureNativeCallback`
(src/SiriShortcutsManager.ts lines 70–81): the listeners receive
`nativeData.parameters || {}`, so an absent map becomes the empty object. -/
def toInvocation (d : NativeShortcutData) : ShortcutInvocation :=
  { identifier := d.identifier, nonce := d.nonce,
    parameters := d.parameters.getD [], userConfirmed := d.userConfirmed }

/-- Models `mapParameterTypeToTS` (src/cli/utils.ts lines 368–381). -/
def mapParameterTypeToTS : ParamType → String
  | .stringT => "string"
  | .numberT => "number"
  | .booleanT => "boolean"
  | .dateT => "Date"

/-- Models one variant of the discriminated union emitted by
`generateTypeScriptTypes` (src/cli/utils.ts lines 301–331): with parameters
a `parameters` object whose fields follow the parameter list (optional
unless `optional: false`), without parameters the literal member
`parameters?: never;`. -/
def genShortcutType (sc : ShortcutDefinition) : String :=
  if sc.parameters.length > 0 then
    let paramFields := joinLines (sc.parameters.map (fun param =>
      "    " ++ param.name
        ++ (match param.optional with | some false => "" | _ => "?")
        ++ ": " ++ mapParameterTypeToTS param.type ++ ";"))
    "  | \x7b\n      identifier: '" ++ sc.identifier
      ++ "';\n      nonce: string;\n      parameters: \x7b\n" ++ paramFields
      ++ "\n      \x7d;\n      userConfirmed?: boolean;\n    \x7d"
  else
    "  | \x7b\n      identifier: '" ++ sc.identifier
      ++ "';\n      nonce: string;\n      " ++ "parameters?: never;"
      ++ "\n      userConfirmed?: boolean;\n    \x7d"

/-- C10.  Listeners always receive a parameters object: the invocation
built for them carries `parameters = nativeData.parameters || {}`, which is
the empty map when the native layer supplies none and the supplied map
otherwise — even though the generated variant for a parameterless shortcut
declares the member `parameters?: never;`. -/
theorem listeners_always_receive_parameters_object
    (d : NativeShortcutData) (m : ParamMap) (sc : ShortcutDefinition) :
    (toInvocation d).parameters = d.parameters.getD [] ∧
    (d.parameters = none → (toInvocation d).parameters = []) ∧
    (d.parameters = some m → (toInvocation d).parameters = m) ∧
    (sc.parameters = [] →
      ∃ pre post, (genShortcutType sc).data =
        pre ++ ("parameters?: never;").data ++ post) := by
  refine ⟨rfl, ?_, ?_, ?_⟩
  · intro h
    simp [toInvocation, h]
  · intro h
    simp [toInvocation, h]
  · intro h
    have hz : ¬ sc.parameters.length > 0 := by simp [h]
    have hunfold : genShortcutType sc =
        "  | \x7b\n      identifier: '" ++ sc.identifier
          ++ "';\n      nonce: string;\n      " ++ "parameters?: never;"
          ++ "\n      userConfirmed?: boolean;\n    \x7d" := by
      simp only [genShortcutType]
      rw [if_neg hz]
    refine ⟨("  | \x7b\n      identifier: '" ++ sc.identifier
      ++ "';\n      nonce: string;\n      ").data,
      ("\n      userConfirmed?: boolean;\n    \x7d").data, ?_⟩
    rw [hunfold]
    simp [String.data_append, List.append_assoc]

/-- Witness for C10: a native payload without parameters is delivered as the
empty map, and a parameterless shortcut's variant contains
`parameters?: never;`. -/
theorem listeners_always_receive_parameters_object_witness :
    (toInvocation { identifier := "startTimer", nonce := "N",
                    parameters := none, userConfirmed := none }).parameters =
      ([] : ParamMap) ∧
    ∃ pre post,
      (genShortcutType { identifier := "startTimer", title := "Start Timer",
                         phrases := ["start timer"] }).data =
        pre ++ ("parameters?: never;").data ++ post := by
  have h := listeners_always_receive_parameters_object
    { identifier := "startTimer", nonce := "N",
      parameters := none, userConfirmed := none } []
    { identifier := "startTimer", title := "Start Timer", phrases := ["start timer"] }
  exact ⟨h.2.1 rfl, h.2.2.2 rfl⟩
